import Mathlib

/-!
Verification development for the scheme-rs lexer (src/lexer.rs, src/tokens.rs).

The lexer is embedded shallowly: the `Chars` iterator of the Rust `Lexer`
struct becomes an explicit `List Char` of remaining input, and every method
that advances the cursor becomes a function from the remaining input to a
result together with the new remaining input.  `next_token` can panic (an
`unwrap` of `bump()` inside `block_comment`), so it returns an `Option`:
`none` models the panic, `some (t, rest)` models returning token `t` with
`rest` still unread.

Character classification: Rust's `char::is_whitespace` is embedded in full
(the Unicode White_Space code points).  `char::is_alphabetic` and
`char::is_numeric` are Unicode-table predicates; they are embedded exactly
for every code point below 0x100 (all of ASCII and Latin-1, covering every
input the repository's tests and spec exercise, and the numeric-but-not-digit
characters such as the superscript two at 0xB2).  Above 0xFF the embeddings
return `false` where Rust's tables may accept; no theorem below depends on
the value of either predicate at such a code point — every universal
statement proved here is either independent of the tables (a Boolean
identity in the predicates, or a fact about the scanning loops) or is
witnessed at code points where the embedding agrees with Rust.
-/

namespace SchemeRs

/-- Double quote, written by code point. -/
def quoteChar : Char := Char.ofNat 34

/-- Apostrophe, written by code point. -/
def apostChar : Char := Char.ofNat 39

/-- Backquote, written by code point. -/
def graveChar : Char := Char.ofNat 96

/-- Opening curly brace, written by code point. -/
def lbraceChar : Char := Char.ofNat 123

/-- Closing curly brace, written by code point. -/
def rbraceChar : Char := Char.ofNat 125

/-- Rust `char::is_whitespace`: the Unicode White_Space code points. -/
def rustIsWhitespace (c : Char) : Bool :=
  decide (c.toNat = 32 ∨ (9 ≤ c.toNat ∧ c.toNat ≤ 13) ∨ c.toNat = 0x85 ∨
    c.toNat = 0xA0 ∨ c.toNat = 0x1680 ∨ (0x2000 ≤ c.toNat ∧ c.toNat ≤ 0x200A) ∨
    c.toNat = 0x2028 ∨ c.toNat = 0x2029 ∨ c.toNat = 0x202F ∨ c.toNat = 0x205F ∨
    c.toNat = 0x3000)

/-- Rust `char::is_alphabetic` (the Unicode `Alphabetic` property), exact
for every code point below 0x100: the ASCII letters plus the Latin-1
letters at 0xAA, 0xB5, 0xBA, 0xC0-0xD6, 0xD8-0xF6 and 0xF8-0xFF (0xD7 and
0xF7, the multiplication and division signs, are excluded, as in the
Unicode table).  Above 0xFF this embedding returns `false` where Rust may
accept; no theorem in this file depends on its value there. -/
def rustIsAlphabetic (c : Char) : Bool :=
  decide (('a' ≤ c ∧ c ≤ 'z') ∨ ('A' ≤ c ∧ c ≤ 'Z') ∨
    c.toNat = 0xAA ∨ c.toNat = 0xB5 ∨ c.toNat = 0xBA ∨
    (0xC0 ≤ c.toNat ∧ c.toNat ≤ 0xD6) ∨ (0xD8 ≤ c.toNat ∧ c.toNat ≤ 0xF6) ∨
    (0xF8 ≤ c.toNat ∧ c.toNat ≤ 0xFF))

/-- Rust `char::is_numeric` (Unicode general categories Nd, Nl, No), exact
for every code point below 0x100: the decimal digits 0-9 plus the Latin-1
numeric characters at 0xB2, 0xB3, 0xB9 (superscript two, three, one) and
0xBC-0xBE (the vulgar fractions).  This class is strictly larger than the
decimal digits.  Above 0xFF this embedding returns `false` where Rust may
accept; no theorem in this file depends on its value there. -/
def rustIsNumeric (c : Char) : Bool :=
  decide (('0' ≤ c ∧ c ≤ '9') ∨ c.toNat = 0xB2 ∨ c.toNat = 0xB3 ∨
    c.toNat = 0xB9 ∨ (0xBC ≤ c.toNat ∧ c.toNat ≤ 0xBE))

/-- Rust `char::is_alphanumeric` = `is_alphabetic || is_numeric`. -/
def rustIsAlphanumeric (c : Char) : Bool :=
  rustIsAlphabetic c || rustIsNumeric c

/-- The lazily initialised `EXTENDED_IDENT_CHARS` set from src/lexer.rs. -/
def EXTENDED_IDENT_CHARS : List Char :=
  ['!', '$', '%', '&', '*', '+', '-', '.', '/', ':', '<', '=', '>', '?', '@', '^', '_', '~']

/-- `is_valid_first_letter_ident` from src/lexer.rs:
`!c.is_numeric() && (c.is_alphabetic() || EXTENDED_IDENT_CHARS.contains(&c))`. -/
def is_valid_first_letter_ident (c : Char) : Bool :=
  !(rustIsNumeric c) && (rustIsAlphabetic c || EXTENDED_IDENT_CHARS.contains c)

/-- `is_identifier_char` from src/lexer.rs:
`c.is_alphanumeric() || EXTENDED_IDENT_CHARS.contains(&c)`. -/
def is_identifier_char (c : Char) : Bool :=
  rustIsAlphanumeric c || EXTENDED_IDENT_CHARS.contains c

/-- Rust `str::trim`: strip leading and trailing `char::is_whitespace` runs. -/
def trimChars (s : List Char) : List Char :=
  ((s.dropWhile rustIsWhitespace).reverse.dropWhile rustIsWhitespace).reverse

/-- `LiteralKind` from src/tokens.rs. -/
inductive LiteralKind where
  | Str : String → LiteralKind
  | Boolean : String → LiteralKind
  | Number : String → LiteralKind
  deriving DecidableEq, Repr

/-- `Token` from src/tokens.rs. `Error` is the `Unknown` token of the spec. -/
inductive Token where
  | Identifier : String → Token
  | PipeIdentifier : String → Token
  | Comment : String → Token
  | BlockComment : String → Token
  | Directive : String → Token
  | DatumOpen : String → Token
  | DatumRef : String → Token
  | OpenParen : Token
  | CloseParen : Token
  | OpenSquareParen : Token
  | CloseSquareParen : Token
  | OpenCurlyParen : Token
  | CloseCurlyParen : Token
  | Apost : Token
  | Grave : Token
  | OpenVec : Token
  | OpenByteVec : Token
  | Literal : LiteralKind → Token
  | Error : Token
  | EOF : Token
  deriving DecidableEq, Repr

/-- `Lexer::take_while`: the maximal matching run, paired with what is left. -/
def take_while (p : Char → Bool) : List Char → List Char × List Char
  | [] => ([], [])
  | c :: rest =>
    if p c then
      match take_while p rest with
      | (taken, left) => (c :: taken, left)
    else ([], c :: rest)

/-- `Lexer::eat_while`: side-effect-only variant of `take_while`. -/
def eat_while (p : Char → Bool) : List Char → List Char
  | [] => []
  | c :: rest => if p c then eat_while p rest else c :: rest

/-- The accumulation loop inside `Lexer::identifier`. -/
def identTake : List Char → List Char × List Char
  | [] => ([], [])
  | c :: rest =>
    if is_identifier_char c then
      match identTake rest with
      | (taken, left) => (c :: taken, left)
    else ([], c :: rest)

/-- `Lexer::identifier`: the first letter is already consumed and passed in. -/
def identifier (first : Char) (s : List Char) : Token × List Char :=
  (Token.Identifier (String.mk (first :: (identTake s).1)), (identTake s).2)

/-- `Lexer::line_comment`: take to end of line, trim, wrap in `Comment`. -/
def line_comment (s : List Char) : Token × List Char :=
  (Token.Comment (String.mk (trimChars (take_while (fun c => c != '\n') s).1)),
   (take_while (fun c => c != '\n') s).2)

/-- `Lexer::directive`: throw away the `!`, take the non-whitespace run. -/
def directive (s : List Char) : Token × List Char :=
  (Token.Directive (String.mk (take_while (fun c => !(rustIsWhitespace c)) s.tail).1),
   (take_while (fun c => !(rustIsWhitespace c)) s.tail).2)

/-- `Lexer::boolean`: as written in src/lexer.rs it takes a run of
whitespace characters and compares it with t/true/f/false. -/
def boolean (s : List Char) : Token × List Char :=
  if String.mk (take_while rustIsWhitespace s).1 = "t" ∨
      String.mk (take_while rustIsWhitespace s).1 = "true" ∨
      String.mk (take_while rustIsWhitespace s).1 = "f" ∨
      String.mk (take_while rustIsWhitespace s).1 = "false" then
    (Token.Literal (LiteralKind.Boolean (String.mk (take_while rustIsWhitespace s).1)),
     (take_while rustIsWhitespace s).2)
  else (Token.Error, (take_while rustIsWhitespace s).2)

/-- `Lexer::pipe_identifier`: rebuild `|` + content + `|`, then bump the
closing delimiter (a bump of `None` at end of input is silently ignored). -/
def pipe_identifier (s : List Char) : Token × List Char :=
  (Token.Identifier (String.mk ('|' :: ((take_while (fun c => c != '|') s).1 ++ ['|']))),
   (take_while (fun c => c != '|') s).2.tail)

/-- `Lexer::string_literal`: dead code in src/lexer.rs (no dispatch arm ever
calls it); it takes a non-whitespace run and then bumps one char. -/
def string_literal (s : List Char) : Token × List Char :=
  (Token.Literal (LiteralKind.Str (String.mk (take_while (fun c => !(rustIsWhitespace c)) s).1)),
   (take_while (fun c => !(rustIsWhitespace c)) s).2.tail)

/-- `Lexer::vector`: throw away the `(`. -/
def vector (s : List Char) : Token × List Char := (Token.OpenVec, s.tail)

/-- `Lexer::bytevector`: throw away `u`, `8`, `(`. -/
def bytevector (s : List Char) : Token × List Char := (Token.OpenByteVec, s.tail.tail.tail)

/-- The `while self.first() != Some('|') && self.second() != Some('#')` loop
of `Lexer::block_comment` together with the match that follows it.  `acc`
holds the pushed content in reverse.  `none` models the panic of
`self.bump().unwrap()` when the input runs out inside the loop. -/
def blockLoop : List Char → List Char → Option (Token × List Char)
  | _, [] => none
  | _, [c] => if c = '|' then some (Token.Error, [c]) else none
  | acc, c1 :: c2 :: rest =>
    if c1 = '|' then
      if c2 = '#' then
        some (Token.BlockComment (String.mk (trimChars acc.reverse)), rest)
      else some (Token.Error, c1 :: c2 :: rest)
    else if c2 = '#' then some (Token.Error, c1 :: c2 :: rest)
    else blockLoop (c1 :: acc) (c2 :: rest)

/-- `Lexer::block_comment`: throw away the `|`, then run the scan loop. -/
def block_comment (s : List Char) : Option (Token × List Char) :=
  blockLoop [] s.tail

/-- The `match (first_char, self.first(), self.second(), self.third())` of
`Lexer::next_token`, with `c` the already-bumped first char and `s` the
remaining input; arms in source order. -/
def dispatch (c : Char) (s : List Char) : Option (Token × List Char) :=
  if c = '(' then some (Token.OpenParen, s)
  else if c = ')' then some (Token.CloseParen, s)
  else if c = '[' then some (Token.OpenSquareParen, s)
  else if c = ']' then some (Token.CloseSquareParen, s)
  else if c = lbraceChar then some (Token.OpenCurlyParen, s)
  else if c = rbraceChar then some (Token.CloseCurlyParen, s)
  else if c = apostChar then some (Token.Apost, s)
  else if c = graveChar then some (Token.Grave, s)
  else if c = ';' then some (line_comment s)
  else if c = '#' ∧ s.head? = some '|' then block_comment s
  else if c = '#' ∧ s.head? = some '!' then some (directive s)
  else if c = '#' ∧ (s.head? = some 't' ∨ s.head? = some 'f') then some (boolean s)
  else if c = '#' ∧ s.head? = some 'u' ∧ s.tail.head? = some '8' ∧
      s.tail.tail.head? = some '(' then some (bytevector s)
  else if c = '#' ∧ s.head? = some '(' then some (vector s)
  else if c = '|' then some (pipe_identifier s)
  else if is_valid_first_letter_ident c then some (identifier c s)
  else some (Token.Error, s)

/-- `Lexer::next_token`: eat whitespace, return `EOF` on exhausted input,
otherwise bump one char and dispatch on it. -/
def nextToken (s : List Char) : Option (Token × List Char) :=
  match eat_while rustIsWhitespace s with
  | [] => some (Token.EOF, [])
  | c :: rest => dispatch c rest

/-- Decimal-digit test, as the words of claim C8 use it. -/
def isDecimalDigit (c : Char) : Bool :=
  decide ('0' ≤ c ∧ c ≤ '9')

/-- Token shapes claim C10 allows: everything except `PipeIdentifier`,
`DatumOpen`, `DatumRef`, `Literal Str` and `Literal Number`. -/
def claim10Allowed : Token → Bool
  | Token.PipeIdentifier _ => false
  | Token.DatumOpen _ => false
  | Token.DatumRef _ => false
  | Token.Literal (LiteralKind.Str _) => false
  | Token.Literal (LiteralKind.Number _) => false
  | _ => true

/-- Within `n` calls, the token chain either returns `EOF`, or a call
panics (`none`); `false` when the budget runs out first. -/
def haltsWithin : Nat → List Char → Bool
  | 0, _ => false
  | n + 1, s =>
    match nextToken s with
    | none => true
    | some (t, s') => if t = Token.EOF then true else haltsWithin n s'

theorem take_while_eq (p : Char → Bool) (s : List Char) :
    take_while p s = (s.takeWhile p, s.dropWhile p) := by
  induction s with
  | nil => rfl
  | cons c rest ih =>
    cases h : p c <;>
      simp [take_while, List.takeWhile_cons, List.dropWhile_cons, h, ih]

theorem eat_while_eq (p : Char → Bool) (s : List Char) :
    eat_while p s = s.dropWhile p := by
  induction s with
  | nil => rfl
  | cons c rest ih =>
    cases h : p c <;> simp [eat_while, List.dropWhile_cons, h, ih]

theorem identTake_eq (s : List Char) :
    identTake s = (s.takeWhile is_identifier_char, s.dropWhile is_identifier_char) := by
  induction s with
  | nil => rfl
  | cons c rest ih =>
    cases h : is_identifier_char c <;>
      simp [identTake, List.takeWhile_cons, List.dropWhile_cons, h, ih]

theorem length_dropWhile_le (p : Char → Bool) (l : List Char) :
    (l.dropWhile p).length ≤ l.length := by
  induction l with
  | nil => exact Nat.le_refl 0
  | cons c rest ih =>
    rw [List.dropWhile_cons]
    split
    · exact Nat.le_trans ih (Nat.le_succ rest.length)
    · exact Nat.le_refl _

theorem length_tail_le (l : List Char) : l.tail.length ≤ l.length := by
  cases l with
  | nil => exact Nat.le_refl 0
  | cons a t => exact Nat.le_succ t.length

theorem takeWhile_head (p : Char → Bool) (l : List Char) (c : Char) (cs : List Char)
    (h : l.takeWhile p = c :: cs) : p c = true := by
  induction l with
  | nil => simp at h
  | cons a t _ =>
    rw [List.takeWhile_cons] at h
    cases ha : p a
    · simp [ha] at h
    · simp [ha] at h
      exact h.1 ▸ ha

theorem head_dropWhile_all (p : Char → Bool) (l : List Char) :
    ((l.dropWhile p).head?.all fun d => !(p d)) = true := by
  induction l with
  | nil => rfl
  | cons a t ih =>
    rw [List.dropWhile_cons]
    cases ha : p a
    · simp [ha]
    · simp [ha, ih]

theorem boolean_fst (s : List Char) : (boolean s).1 = Token.Error := by
  have hfirst : ∀ c cs, (take_while rustIsWhitespace s).1 = c :: cs →
      rustIsWhitespace c = true := by
    intro c cs hcc
    rw [take_while_eq] at hcc
    exact takeWhile_head rustIsWhitespace s c cs hcc
  unfold boolean
  split_ifs with hc
  · exfalso
    rcases hc with h | h | h | h
    · exact absurd (hfirst 't' [] (congrArg String.data h)) (by decide)
    · exact absurd (hfirst 't' ['r', 'u', 'e'] (congrArg String.data h)) (by decide)
    · exact absurd (hfirst 'f' [] (congrArg String.data h)) (by decide)
    · exact absurd (hfirst 'f' ['a', 'l', 's', 'e'] (congrArg String.data h)) (by decide)
  · rfl

theorem boolean_snd (s : List Char) :
    (boolean s).2 = s.dropWhile rustIsWhitespace := by
  unfold boolean
  split_ifs <;> simp [take_while_eq]

theorem blockLoop_spec (s : List Char) : ∀ acc t s', blockLoop acc s = some (t, s') →
    ((∃ q, t = Token.BlockComment q) ∨ t = Token.Error) ∧ s'.length ≤ s.length := by
  induction s with
  | nil => intro acc t s' h; simp [blockLoop] at h
  | cons c1 tail ih =>
    intro acc t s' h
    cases tail with
    | nil =>
      simp only [blockLoop] at h
      by_cases hc : c1 = '|'
      · rw [if_pos hc] at h
        simp only [Option.some.injEq, Prod.mk.injEq] at h
        obtain ⟨rfl, rfl⟩ := h
        exact ⟨Or.inr rfl, Nat.le_refl _⟩
      · rw [if_neg hc] at h
        exact absurd h (by simp)
    | cons c2 rest =>
      simp only [blockLoop] at h
      by_cases h1 : c1 = '|'
      · rw [if_pos h1] at h
        by_cases h2 : c2 = '#'
        · rw [if_pos h2] at h
          simp only [Option.some.injEq, Prod.mk.injEq] at h
          obtain ⟨rfl, rfl⟩ := h
          exact ⟨Or.inl ⟨_, rfl⟩,
            Nat.le_trans (Nat.le_succ _) (Nat.le_succ _)⟩
        · rw [if_neg h2] at h
          simp only [Option.some.injEq, Prod.mk.injEq] at h
          obtain ⟨rfl, rfl⟩ := h
          exact ⟨Or.inr rfl, Nat.le_refl _⟩
      · rw [if_neg h1] at h
        by_cases h2 : c2 = '#'
        · rw [if_pos h2] at h
          simp only [Option.some.injEq, Prod.mk.injEq] at h
          obtain ⟨rfl, rfl⟩ := h
          exact ⟨Or.inr rfl, Nat.le_refl _⟩
        · rw [if_neg h2] at h
          have hr := ih (c1 :: acc) t s' h
          exact ⟨hr.1, Nat.le_trans hr.2 (Nat.le_succ _)⟩

theorem dispatch_spec (c : Char) (s : List Char) (t : Token) (s' : List Char)
    (h : dispatch c s = some (t, s')) :
    claim10Allowed t = true ∧ t ≠ Token.EOF ∧ s'.length ≤ s.length := by
  unfold dispatch at h
  by_cases hc1 : c = '('
  · rw [if_pos hc1] at h
    simp only [Option.some.injEq, Prod.mk.injEq] at h
    obtain ⟨rfl, rfl⟩ := h
    exact ⟨rfl, fun hx => Token.noConfusion hx, Nat.le_refl _⟩
  rw [if_neg hc1] at h
  by_cases hc2 : c = ')'
  · rw [if_pos hc2] at h
    simp only [Option.some.injEq, Prod.mk.injEq] at h
    obtain ⟨rfl, rfl⟩ := h
    exact ⟨rfl, fun hx => Token.noConfusion hx, Nat.le_refl _⟩
  rw [if_neg hc2] at h
  by_cases hc3 : c = '['
  · rw [if_pos hc3] at h
    simp only [Option.some.injEq, Prod.mk.injEq] at h
    obtain ⟨rfl, rfl⟩ := h
    exact ⟨rfl, fun hx => Token.noConfusion hx, Nat.le_refl _⟩
  rw [if_neg hc3] at h
  by_cases hc4 : c = ']'
  · rw [if_pos hc4] at h
    simp only [Option.some.injEq, Prod.mk.injEq] at h
    obtain ⟨rfl, rfl⟩ := h
    exact ⟨rfl, fun hx => Token.noConfusion hx, Nat.le_refl _⟩
  rw [if_neg hc4] at h
  by_cases hc5 : c = lbraceChar
  · rw [if_pos hc5] at h
    simp only [Option.some.injEq, Prod.mk.injEq] at h
    obtain ⟨rfl, rfl⟩ := h
    exact ⟨rfl, fun hx => Token.noConfusion hx, Nat.le_refl _⟩
  rw [if_neg hc5] at h
  by_cases hc6 : c = rbraceChar
  · rw [if_pos hc6] at h
    simp only [Option.some.injEq, Prod.mk.injEq] at h
    obtain ⟨rfl, rfl⟩ := h
    exact ⟨rfl, fun hx => Token.noConfusion hx, Nat.le_refl _⟩
  rw [if_neg hc6] at h
  by_cases hc7 : c = apostChar
  · rw [if_pos hc7] at h
    simp only [Option.some.injEq, Prod.mk.injEq] at h
    obtain ⟨rfl, rfl⟩ := h
    exact ⟨rfl, fun hx => Token.noConfusion hx, Nat.le_refl _⟩
  rw [if_neg hc7] at h
  by_cases hc8 : c = graveChar
  · rw [if_pos hc8] at h
    simp only [Option.some.injEq, Prod.mk.injEq] at h
    obtain ⟨rfl, rfl⟩ := h
    exact ⟨rfl, fun hx => Token.noConfusion hx, Nat.le_refl _⟩
  rw [if_neg hc8] at h
  by_cases hc9 : c = ';'
  · rw [if_pos hc9] at h
    simp only [line_comment, Option.some.injEq, Prod.mk.injEq] at h
    obtain ⟨rfl, rfl⟩ := h
    refine ⟨rfl, fun hx => Token.noConfusion hx, ?_⟩
    rw [take_while_eq]
    exact length_dropWhile_le _ _
  rw [if_neg hc9] at h
  by_cases hc10 : c = '#' ∧ s.head? = some '|'
  · rw [if_pos hc10] at h
    unfold block_comment at h
    have hb := blockLoop_spec s.tail [] t s' h
    refine ⟨?_, ?_, Nat.le_trans hb.2 (length_tail_le s)⟩
    · rcases hb.1 with ⟨q, rfl⟩ | rfl <;> rfl
    · rcases hb.1 with ⟨q, rfl⟩ | rfl <;> exact fun hx => Token.noConfusion hx
  rw [if_neg hc10] at h
  by_cases hc11 : c = '#' ∧ s.head? = some '!'
  · rw [if_pos hc11] at h
    simp only [directive, Option.some.injEq, Prod.mk.injEq] at h
    obtain ⟨rfl, rfl⟩ := h
    refine ⟨rfl, fun hx => Token.noConfusion hx, ?_⟩
    rw [take_while_eq]
    exact Nat.le_trans (length_dropWhile_le _ _) (length_tail_le s)
  rw [if_neg hc11] at h
  by_cases hc12 : c = '#' ∧ (s.head? = some 't' ∨ s.head? = some 'f')
  · rw [if_pos hc12] at h
    have hb := Option.some.inj h
    have h1 : t = Token.Error := by rw [← boolean_fst s, hb]
    have h2 : s' = (boolean s).2 := by rw [hb]
    subst h1
    refine ⟨rfl, fun hx => Token.noConfusion hx, ?_⟩
    rw [h2, boolean_snd]
    exact length_dropWhile_le _ _
  rw [if_neg hc12] at h
  by_cases hc13 : c = '#' ∧ s.head? = some 'u' ∧ s.tail.head? = some '8' ∧
      s.tail.tail.head? = some '('
  · rw [if_pos hc13] at h
    simp only [bytevector, Option.some.injEq, Prod.mk.injEq] at h
    obtain ⟨rfl, rfl⟩ := h
    exact ⟨rfl, fun hx => Token.noConfusion hx,
      Nat.le_trans (length_tail_le _) (Nat.le_trans (length_tail_le _) (length_tail_le _))⟩
  rw [if_neg hc13] at h
  by_cases hc14 : c = '#' ∧ s.head? = some '('
  · rw [if_pos hc14] at h
    simp only [vector, Option.some.injEq, Prod.mk.injEq] at h
    obtain ⟨rfl, rfl⟩ := h
    exact ⟨rfl, fun hx => Token.noConfusion hx, length_tail_le _⟩
  rw [if_neg hc14] at h
  by_cases hc15 : c = '|'
  · rw [if_pos hc15] at h
    simp only [pipe_identifier, Option.some.injEq, Prod.mk.injEq] at h
    obtain ⟨rfl, rfl⟩ := h
    refine ⟨rfl, fun hx => Token.noConfusion hx, ?_⟩
    rw [take_while_eq]
    exact Nat.le_trans (length_tail_le _) (length_dropWhile_le _ _)
  rw [if_neg hc15] at h
  by_cases hc16 : is_valid_first_letter_ident c = true
  · rw [if_pos hc16] at h
    simp only [identifier, Option.some.injEq, Prod.mk.injEq] at h
    obtain ⟨rfl, rfl⟩ := h
    refine ⟨rfl, fun hx => Token.noConfusion hx, ?_⟩
    rw [identTake_eq]
    exact length_dropWhile_le _ _
  · rw [if_neg hc16] at h
    simp only [Option.some.injEq, Prod.mk.injEq] at h
    obtain ⟨rfl, rfl⟩ := h
    exact ⟨rfl, fun hx => Token.noConfusion hx, Nat.le_refl _⟩
theorem nextToken_spec (s : List Char) (t : Token) (s' : List Char)
    (h : nextToken s = some (t, s')) :
    (t = Token.EOF ∧ s' = []) ∨
      (claim10Allowed t = true ∧ t ≠ Token.EOF ∧ s'.length < s.length) := by
  unfold nextToken at h
  cases he : eat_while rustIsWhitespace s with
  | nil =>
    rw [he] at h
    simp only [Option.some.injEq, Prod.mk.injEq] at h
    obtain ⟨rfl, rfl⟩ := h
    exact Or.inl ⟨rfl, rfl⟩
  | cons c rest =>
    rw [he] at h
    have hd := dispatch_spec c rest t s' h
    have hws : (c :: rest).length ≤ s.length := by
      rw [← he, eat_while_eq]
      exact length_dropWhile_le _ _
    refine Or.inr ⟨hd.1, hd.2.1, ?_⟩
    have : s'.length ≤ rest.length := hd.2.2
    simp only [List.length_cons] at hws
    omega

theorem takeWhile_append_all (p : Char → Bool) (l1 l2 : List Char)
    (h : ∀ c ∈ l1, p c = true) :
    (l1 ++ l2).takeWhile p = l1 ++ l2.takeWhile p := by
  induction l1 with
  | nil => simp
  | cons a t ih =>
    have ha := h a (List.mem_cons_self a t)
    simp [List.takeWhile_cons, ha, ih (fun c hc => h c (List.mem_cons_of_mem a hc))]

theorem dropWhile_append_all (p : Char → Bool) (l1 l2 : List Char)
    (h : ∀ c ∈ l1, p c = true) :
    (l1 ++ l2).dropWhile p = l2.dropWhile p := by
  induction l1 with
  | nil => simp
  | cons a t ih =>
    have ha := h a (List.mem_cons_self a t)
    simp [List.dropWhile_cons, ha, ih (fun c hc => h c (List.mem_cons_of_mem a hc))]

theorem nextToken_cons (c : Char) (l : List Char) (h : rustIsWhitespace c = false) :
    nextToken (c :: l) = dispatch c l := by
  unfold nextToken
  have he : eat_while rustIsWhitespace (c :: l) = c :: l := by
    simp [eat_while, h]
  rw [he]

theorem dispatch_pipe (s : List Char) : dispatch '|' s = some (pipe_identifier s) := by
  unfold dispatch
  have h10 : ¬(('|' : Char) = '#' ∧ s.head? = some '|') := fun hh => absurd hh.1 (by decide)
  have h11 : ¬(('|' : Char) = '#' ∧ s.head? = some '!') := fun hh => absurd hh.1 (by decide)
  have h12 : ¬(('|' : Char) = '#' ∧ (s.head? = some 't' ∨ s.head? = some 'f')) :=
    fun hh => absurd hh.1 (by decide)
  have h13 : ¬(('|' : Char) = '#' ∧ s.head? = some 'u' ∧ s.tail.head? = some '8' ∧
      s.tail.tail.head? = some '(') := fun hh => absurd hh.1 (by decide)
  have h14 : ¬(('|' : Char) = '#' ∧ s.head? = some '(') := fun hh => absurd hh.1 (by decide)
  rw [if_neg (by decide), if_neg (by decide), if_neg (by decide), if_neg (by decide),
    if_neg (by decide), if_neg (by decide), if_neg (by decide), if_neg (by decide),
    if_neg (by decide), if_neg h10, if_neg h11, if_neg h12, if_neg h13, if_neg h14,
    if_pos rfl]

theorem dispatch_hash_pipe (s : List Char) (hs : s.head? = some '|') :
    dispatch '#' s = block_comment s := by
  unfold dispatch
  rw [if_neg (by decide), if_neg (by decide), if_neg (by decide), if_neg (by decide),
    if_neg (by decide), if_neg (by decide), if_neg (by decide), if_neg (by decide),
    if_neg (by decide), if_pos (And.intro rfl hs)]

theorem blockLoop_run (content : List Char) : ∀ acc rest : List Char,
    '|' ∉ content → '#' ∉ content →
    blockLoop acc (content ++ '|' :: '#' :: rest) =
      some (Token.BlockComment (String.mk (trimChars (acc.reverse ++ content))), rest) := by
  induction content with
  | nil =>
    intro acc rest _ _
    simp [blockLoop]
  | cons c cs ih =>
    intro acc rest h1 h2
    have hc1 : ¬(c = '|') := fun hh => h1 (hh ▸ List.mem_cons_self c cs)
    have hcs1 : '|' ∉ cs := fun hh => h1 (List.mem_cons_of_mem c hh)
    have hcs2 : '#' ∉ cs := fun hh => h2 (List.mem_cons_of_mem c hh)
    cases cs with
    | nil =>
      show blockLoop acc (c :: '|' :: '#' :: rest) = _
      simp [blockLoop, hc1]
    | cons c2 cs2 =>
      have hc2 : ¬(c2 = '#') := fun hh => hcs2 (hh ▸ List.mem_cons_self c2 cs2)
      show blockLoop acc (c :: c2 :: (cs2 ++ '|' :: '#' :: rest)) = _
      simp only [blockLoop]
      rw [if_neg hc1, if_neg hc2]
      rw [show (c2 :: (cs2 ++ '|' :: '#' :: rest)) = ((c2 :: cs2) ++ '|' :: '#' :: rest)
        from rfl]
      rw [ih (c :: acc) rest hcs1 hcs2]
      simp

theorem haltsWithin_aux (n : Nat) : ∀ s : List Char, s.length ≤ n →
    haltsWithin (n + 1) s = true := by
  induction n with
  | zero =>
    intro s hs
    have hnil : s = [] := List.length_eq_zero.mp (Nat.le_zero.mp hs)
    subst hnil
    decide
  | succ n ih =>
    intro s hs
    rw [haltsWithin]
    cases h : nextToken s with
    | none => rfl
    | some r =>
      obtain ⟨t, s'⟩ := r
      show (if t = Token.EOF then true else haltsWithin (n + 1) s') = true
      by_cases ht : t = Token.EOF
      · rw [if_pos ht]
      · rw [if_neg ht]
        rcases nextToken_spec s t s' h with ⟨he, _⟩ | ⟨_, _, hlt⟩
        · exact absurd he ht
        · exact ih s' (by omega)

/-- Claim C1: the code does not deliver one Unknown-then-EOF on unterminated
constructs.  On the unterminated block comment `#|abc` the call panics
(modelled `none`); on the unterminated pipe identifier `|abc` it returns a
partial `Identifier` with a fabricated closing pipe instead of Unknown; on
the unterminated string (quote then abc) it returns `Error` for the quote
alone and the tail then lexes as an ordinary identifier, not EOF. -/
theorem claim1_unterminated_behavior :
    nextToken ("#|abc".data) = none ∧
      nextToken ("|abc".data) = some (Token.Identifier ("|abc|"), []) ∧
      nextToken (quoteChar :: "abc".data) = some (Token.Error, "abc".data) ∧
      nextToken ("abc".data) = some (Token.Identifier ("abc"), []) := by
  decide

/-- Claim C2: the code has no string-literal dispatch arm; on the fully
terminated string input quote-a-b-quote, `next_token` returns `Error` after
consuming only the opening quote, not a `Literal Str` of the contents. -/
theorem claim2_string_dispatch_missing :
    nextToken (quoteChar :: 'a' :: 'b' :: [quoteChar]) =
      some (Token.Error, 'a' :: 'b' :: [quoteChar]) ∧
      Token.Error ≠ Token.Literal (LiteralKind.Str ("ab")) := by
  decide

/-- Claim C3: the boolean scanner takes a run of whitespace characters, so
its comparison against t/true/f/false can never succeed: `#t` lexes as
`Error` (leaving the `t` unconsumed) and `boolean` returns `Error` on every
input whatsoever. -/
theorem claim3_boolean_always_error :
    nextToken ("#t".data) = some (Token.Error, ['t']) ∧
      ∀ s : List Char, (boolean s).1 = Token.Error :=
  ⟨by decide, boolean_fst⟩

/-- Claim C4 counterexample: `|two words|` lexes as an `Identifier` that
still carries both pipe delimiters, not the delimiter-stripped payload the
claim states. -/
theorem claim4_pipe_delimiters_kept_cex :
    nextToken ("|two words|".data) = some (Token.Identifier ("|two words|"), []) ∧
      Token.Identifier ("|two words|") ≠ Token.Identifier ("two words") := by
  decide

/-- Claim C4 (amended): for an input beginning with `|` whose remainder
contains a closing `|`, `next_token` returns an `Identifier` whose payload
is the opening pipe, the characters between the delimiters, and the closing
pipe — the delimiters are kept, not stripped — consuming through the
closing pipe. -/
theorem claim4_pipe_identifier_amended (content rest : List Char) (h : '|' ∉ content) :
    nextToken ('|' :: (content ++ '|' :: rest)) =
      some (Token.Identifier (String.mk ('|' :: (content ++ ['|']))), rest) := by
  rw [nextToken_cons _ _ (by decide), dispatch_pipe]
  unfold pipe_identifier
  rw [take_while_eq]
  have hall : ∀ c ∈ content, (c != '|') = true := by
    intro c hc
    exact bne_iff_ne.mpr (fun hh => h (hh ▸ hc))
  have htw : (content ++ '|' :: rest).takeWhile (fun c => c != '|') = content := by
    rw [takeWhile_append_all _ _ _ hall]
    simp [List.takeWhile_cons]
  have hdw : (content ++ '|' :: rest).dropWhile (fun c => c != '|') = '|' :: rest := by
    rw [dropWhile_append_all _ _ _ hall]
    simp [List.dropWhile_cons]
  rw [htw, hdw]
  simp

/-- Claim C4 witness: the amended statement applied to the spec's own
example `|two words|`. -/
theorem claim4_pipe_identifier_witness :
    nextToken ('|' :: (("two words".data) ++ '|' :: [])) =
      some (Token.Identifier (String.mk ('|' :: (("two words".data) ++ ['|']))), []) :=
  claim4_pipe_identifier_amended ("two words".data) [] (by decide)

/-- Claim C5 counterexample: the input `#|a#|#` begins with `#|` and
contains a later `|#`, but the scan loop stops as soon as the second
lookahead is `#`, so `next_token` returns `Error`, not the `BlockComment`
carrying `a#` that the claim states. -/
theorem claim5_block_comment_cex :
    nextToken ("#|a#|#".data) = some (Token.Error, "a#|#".data) ∧
      Token.Error ≠ Token.BlockComment ("a#") := by
  decide

/-- Claim C5 (amended): for an input beginning with `#|` followed by the
closing `|#`, where the enclosed content contains neither `|` nor `#`,
`next_token` returns a `BlockComment` whose payload is that content trimmed
of surrounding whitespace, with both delimiters consumed; contents
containing `|` or `#` can instead produce `Error` (see the
counterexample). -/
theorem claim5_block_comment_amended (content rest : List Char)
    (h1 : '|' ∉ content) (h2 : '#' ∉ content) :
    nextToken ('#' :: '|' :: (content ++ '|' :: '#' :: rest)) =
      some (Token.BlockComment (String.mk (trimChars content)), rest) := by
  rw [nextToken_cons _ _ (by decide),
    dispatch_hash_pipe ('|' :: (content ++ '|' :: '#' :: rest)) rfl]
  unfold block_comment
  show blockLoop [] (content ++ '|' :: '#' :: rest) = _
  rw [blockLoop_run content [] rest h1 h2]
  simp

/-- Claim C5 witness: the amended statement applied to the block comment
with content ab and empty remainder. -/
theorem claim5_block_comment_witness :
    nextToken ('#' :: '|' :: (("ab".data) ++ '|' :: '#' :: [])) =
      some (Token.BlockComment (String.mk (trimChars ("ab".data))), []) :=
  claim5_block_comment_amended ("ab".data) [] (by decide) (by decide)

/-- Claim C6 counterexample: on the unterminated block comment `#|x` the
very first `next_token` call panics (modelled `none`), so repeated calls do
not reach `EOF` on this input. -/
theorem claim6_progress_cex : nextToken ("#|x".data) = none := by
  decide

/-- Claim C6 (amended): every `next_token` call that returns a token other
than `EOF` consumes at least one character, and on every input the chain of
calls halts — reaching `EOF`, or aborting with the unterminated-block-comment
panic — within length + 1 calls; the lexer never loops forever. -/
theorem claim6_progress_amended :
    (∀ (s : List Char) (t : Token) (s' : List Char),
      nextToken s = some (t, s') → t ≠ Token.EOF → s'.length < s.length) ∧
      (∀ s : List Char, haltsWithin (s.length + 1) s = true) := by
  constructor
  · intro s t s' h ht
    rcases nextToken_spec s t s' h with ⟨he, _⟩ | ⟨_, _, hlt⟩
    · exact absurd he ht
    · exact hlt
  · intro s
    exact haltsWithin_aux s.length s (Nat.le_refl _)

/-- Claim C6 witness: the progress part applied to the input `(` (one char
consumed), and the halting part applied to a one-blank input. -/
theorem claim6_progress_witness :
    ([] : List Char).length < ['('].length ∧
      haltsWithin ([' '].length + 1) [' '] = true :=
  ⟨claim6_progress_amended.1 ['('] Token.OpenParen [] (by decide) (by decide),
   claim6_progress_amended.2 [' ']⟩

/-- Claim C7: whenever `next_token` returns `EOF` the remaining input is
empty, and every subsequent call returns `EOF` again with the same (empty)
state — the terminal state is idempotent. -/
theorem claim7_eof_idempotent (s s' : List Char)
    (h : nextToken s = some (Token.EOF, s')) :
    nextToken s' = some (Token.EOF, s') := by
  rcases nextToken_spec s Token.EOF s' h with ⟨_, rfl⟩ | ⟨_, hne, _⟩
  · rfl
  · exact absurd rfl hne

/-- Claim C7 witness: applied to a one-blank input, whose first call
returns `EOF`. -/
theorem claim7_eof_idempotent_witness :
    nextToken [] = some (Token.EOF, []) :=
  claim7_eof_idempotent [' '] [] (by decide)

/-- Claim C8 counterexample: the superscript two (code point 0xB2) is an
identifier character (it is Rust-alphanumeric, being Unicode-numeric) and
is not a decimal digit, yet `is_valid_first_letter_ident` rejects it,
because the code's first-letter rule excludes everything
`char::is_numeric` accepts — a strictly larger class than the decimal
digits.  So the claimed "accepted exactly when an identifier character and
not a decimal digit" fails at 0xB2. -/
theorem claim8_first_letter_digit_cex :
    is_identifier_char (Char.ofNat 0xB2) = true ∧
      isDecimalDigit (Char.ofNat 0xB2) = false ∧
      is_valid_first_letter_ident (Char.ofNat 0xB2) = false := by
  decide

/-- Claim C8 (amended): a character is a (non-initial) identifier character
exactly when it is alphanumeric or one of the eighteen extended symbols; a
first character is valid exactly when it is an identifier character that is
not numeric in the sense of Rust's `char::is_numeric` — a strictly larger
exclusion than the decimal digits (see the counterexample at the
superscript two); and the identifier scanner consumes precisely the maximal
run of identifier characters after the first (the next unconsumed
character, if any, fails the predicate).  The first two parts are Boolean
identities in the classification predicates, independent of the character
tables. -/
theorem claim8_identifier_chars :
    (∀ c : Char, is_identifier_char c = true ↔
      (rustIsAlphanumeric c = true ∨
        c ∈ (['!', '$', '%', '&', '*', '+', '-', '.', '/', ':', '<', '=', '>',
          '?', '@', '^', '_', '~'] : List Char))) ∧
      (∀ c : Char, is_valid_first_letter_ident c =
        (is_identifier_char c && !(rustIsNumeric c))) ∧
      (∀ (first : Char) (s : List Char), identifier first s =
        (Token.Identifier (String.mk (first :: s.takeWhile is_identifier_char)),
          s.dropWhile is_identifier_char)) ∧
      (∀ s : List Char,
        ((s.dropWhile is_identifier_char).head?.all fun d => !(is_identifier_char d)) =
          true) := by
  refine ⟨?_, ?_, ?_, ?_⟩
  · intro c
    simp only [is_identifier_char, Bool.or_eq_true]
    constructor
    · rintro (hh | hh)
      · exact Or.inl hh
      · exact Or.inr (List.elem_iff.mp hh)
    · rintro (hh | hh)
      · exact Or.inl hh
      · exact Or.inr (List.elem_iff.mpr hh)
  · intro c
    unfold is_valid_first_letter_ident is_identifier_char rustIsAlphanumeric
    cases h1 : rustIsAlphabetic c <;> cases h2 : rustIsNumeric c <;>
      cases h3 : EXTENDED_IDENT_CHARS.contains c <;> simp [h1, h2, h3]
  · intro first s
    unfold identifier
    rw [identTake_eq]
  · intro s
    exact head_dropWhile_all is_identifier_char s

/-- Claim C9: a lone `.` IS classified as an ordinary identifier:
`next_token` on the single-dot input returns `Identifier` carrying the dot,
contradicting the claim (and the code's own comments in src/tokens.rs and
src/lexer.rs). -/
theorem claim9_lone_dot_identifier :
    nextToken ['.'] = some (Token.Identifier ("."), []) := by
  decide

/-- Claim C10: every token `next_token` ever returns avoids the declared
but unreachable shapes: `PipeIdentifier`, `DatumOpen`, `DatumRef`, and
`Literal` of `Str` or `Number`. -/
theorem claim10_unreachable_variants (s : List Char) (t : Token) (s' : List Char)
    (h : nextToken s = some (t, s')) : claim10Allowed t = true := by
  rcases nextToken_spec s t s' h with ⟨rfl, _⟩ | ⟨ha, _, _⟩
  · rfl
  · exact ha

/-- Claim C10 witness: applied to the input `(`, whose token is
`OpenParen`. -/
theorem claim10_unreachable_variants_witness :
    claim10Allowed Token.OpenParen = true :=
  claim10_unreachable_variants ['('] Token.OpenParen [] (by decide)

